import Mathlib

/-!
# Verification of DocUpdater's exploration core and SSIM comparison engine

Shallow embedding of the algorithmic core of the DocUpdater repository:

* `project/worker/autodoc_engine.py` — the `Config` class, the
  `DeterministicExplorer` (element signatures, safety filter, deterministic
  element selection) and `AutoDocEngine.run_web_exploration` (the bounded
  capture loop).
* `project/worker/process_run.py` — `_bytes_to_rgb_array` and
  `compute_ssim_and_diff` (SSIM score, diff-region extraction) and the
  change-detail severity assignment of `process_run_id`.

Python floats are modelled as exact rationals (`ℚ`); Python ints as `Int`/`Nat`;
selenium element handles as a record of the attribute values the code reads,
with a `stale` flag modelling attribute reads that raise (the `try/except`
blocks in the source).  External OpenCV primitives (image decoding, resampling,
RGB→grayscale conversion, the Gaussian kernel, PNG encoding) are parameters of
the embedding, bundled in `CVPrims`; the repository's own arithmetic is
translated literally.
-/

/- Batteries seals the `Rat` arithmetic behind `@[irreducible]`; re-expose it
so that concrete rational computations in witnesses evaluate by `decide`. -/
attribute [local semireducible] Rat.add Rat.mul Rat.inv Rat.sub

namespace DocUpdater

/-! ## Element model (selenium `WebElement` as seen by the explorer)

A `WebElement` records exactly the data the explorer reads from a live DOM
element: `element.text`, `get_attribute("aria-label" | "name" | "id" | "role")`,
`tag_name`, `location`, `size`, `is_displayed()`, `is_enabled()`.  `stale`
models an element handle whose attribute reads raise
(e.g. `StaleElementReferenceException`); the source wraps every attribute
access in `try/except`. -/
structure WebElement where
  text : String
  ariaLabel : Option String
  nameAttr : Option String
  idAttr : Option String
  role : Option String
  tag : String
  locX : Int
  locY : Int
  sizeW : Nat
  sizeH : Nat
  displayed : Bool
  enabled : Bool
  stale : Bool
deriving DecidableEq

/-- Python's `str.strip()` default whitespace set (the ASCII part; the
explorer only strips button labels). -/
def isSpaceChar (c : Char) : Bool :=
  c == ' ' || c == '\t' || c == '\n' || c == '\r'

/-- Python's `s.strip()`. -/
def trimStr (s : String) : String :=
  ⟨((s.data.dropWhile isSpaceChar).reverse.dropWhile isSpaceChar).reverse⟩

/-- Python's `s[:n]` (first `n` characters). -/
def takeStr (n : Nat) (s : String) : String := ⟨s.data.take n⟩

/-- Python's `a or b` for strings: `b` if `a` is empty, else `a`. -/
def pyOrS (a b : String) : String := if a = "" then b else a

/-- Python's `a or b` where `a` is `get_attribute(...)` (may be `None` or a
possibly-empty string). -/
def pyOrO (a : Option String) (b : String) : String :=
  match a with
  | none => b
  | some s => pyOrS s b

/-- ASCII lowercasing, modelling Python's `str.lower()` on the ASCII texts the
denylist check compares against. -/
def lowerStr (s : String) : String := ⟨s.data.map Char.toLower⟩

/-- Contiguous-sublist test on character lists (helper for `containsSub`). -/
def subListOf (sub : List Char) : List Char → Bool
  | [] => sub.isEmpty
  | c :: t => sub.isPrefixOf (c :: t) || subListOf sub t

/-- Python's substring test `sub in hay`. -/
def containsSub (hay sub : String) : Bool := subListOf sub.data hay.data

/-- `DeterministicExplorer.avoid_keywords` (constructor, lines 159-162). -/
def avoid_keywords : List String :=
  ["logout", "sign out", "delete", "remove", "exit", "cancel", "close", "back"]

/-- The text chosen by `get_element_signature` (lines 168-172):
`element.text.strip() or aria-label or name or id or "element"`. -/
def chosenTextSig (e : WebElement) : String :=
  pyOrS (trimStr e.text) (pyOrO e.ariaLabel (pyOrO e.nameAttr (pyOrO e.idAttr "element")))

/-- `DeterministicExplorer.get_element_signature` (lines 165-180):
`f"{tag}_{text[:30]}_{loc['x']}_{loc['y']}"`, or `None` when an attribute read
raises. -/
def get_element_signature (e : WebElement) : Option String :=
  if e.stale then none
  else some (e.tag ++ "_" ++ takeStr 30 (chosenTextSig e) ++ "_" ++
             toString e.locX ++ "_" ++ toString e.locY)

/-- The lower-cased text that `is_safe_element` checks (lines 185-187):
`(element.text.strip() or aria-label or name or "").lower()`.
Note this chain, unlike the signature chain, never consults the `id`
attribute and falls back to the empty string. -/
def safeText (e : WebElement) : String :=
  lowerStr (pyOrS (trimStr e.text) (pyOrO e.ariaLabel (pyOrO e.nameAttr "")))

/-- `DeterministicExplorer.is_safe_element` (lines 182-199): unsafe when the
chosen text contains a denylist keyword, when the role is a (alert)dialog, or
when an attribute read raises (`except: return False`). -/
def is_safe_element (e : WebElement) : Bool :=
  if e.stale then false
  else if avoid_keywords.any (fun bad => containsSub (safeText e) bad) then false
  else if e.role == some "alertdialog" || e.role == some "dialog" then false
  else true

/-! ## Explorer state and element selection -/

/-- One entry of `DeterministicExplorer.interaction_log`.  The wall-clock
`time.time()` stamp is modelled by a monotone tick (the log length at
insertion time); its value plays no role in any claim. -/
structure LogEntry where
  timestamp : Nat
  signature : String
  text : String
deriving DecidableEq

/-- The mutable state of one `DeterministicExplorer` instance:
`visited_signatures` (a Python `set`, modelled as a list queried by
membership) and `interaction_log`. -/
structure ExplorerState where
  visited : List String
  log : List LogEntry
deriving DecidableEq

/-- The fresh state built by `DeterministicExplorer.__init__`. -/
def initialExplorerState : ExplorerState := { visited := [], log := [] }

/-- One element of the `valid_elements` list built by
`get_next_interactive_element` (lines 240-247). -/
structure ValidElem where
  element : WebElement
  signature : String
  textLabel : String
  y : Int
  x : Int
  area : Nat
deriving DecidableEq

/-- The label stored for a candidate (line 238):
`el.text.strip()[:50] or el.get_attribute("aria-label") or "unlabeled"`. -/
def candidateLabel (e : WebElement) : String :=
  pyOrS (takeStr 50 (trimStr e.text)) (pyOrO e.ariaLabel "unlabeled")

/-- The filter pipeline of `get_next_interactive_element` (lines 224-249):
displayed ∧ enabled, safe, non-null signature, not yet visited; any
attribute-read failure silently drops the candidate (`except: continue`). -/
def passesFilter (visited : List String) (e : WebElement) : Option ValidElem :=
  if e.stale then none
  else if ¬ e.displayed ∨ ¬ e.enabled then none
  else if ¬ is_safe_element e then none
  else
    match get_element_signature e with
    | none => none
    | some sig =>
      if sig ∈ visited then none
      else some { element := e, signature := sig, textLabel := candidateLabel e,
                  y := e.locY, x := e.locX, area := e.sizeW * e.sizeH }

/-- The composite sort key of line 255: `(k['y'] // 100, k['x'] // 100, -k['area'])`
(Python `//` is floor division, hence `Int.fdiv`). -/
def sortKey (v : ValidElem) : Int × Int × Int :=
  (v.y.fdiv 100, v.x.fdiv 100, -(v.area : Int))

/-- Lexicographic comparison of two sort keys, as Python compares tuples. -/
def keyLe (a b : Int × Int × Int) : Bool :=
  decide (a.1 < b.1) ||
    (a.1 == b.1 && (decide (a.2.1 < b.2.1) ||
      (a.2.1 == b.2.1 && decide (a.2.2 ≤ b.2.2))))

/-- The comparison used by `valid_elements.sort(key=...)`. -/
def elemLe (v w : ValidElem) : Bool := keyLe (sortKey v) (sortKey w)

/-- `elemLe` as a decidable relation.  Python's `list.sort` is a stable sort
for the key order; a stable sort's output is unique, so the structurally
recursive stable `List.insertionSort` models it exactly. -/
def elemLeP (v w : ValidElem) : Prop := elemLe v w = true

instance : DecidableRel elemLeP :=
  fun v w => inferInstanceAs (Decidable (elemLe v w = true))

/-- `DeterministicExplorer.get_next_interactive_element` (lines 201-268), given
the concatenated results of the six `find_elements` queries as `candidates`:
filter, sort by the composite key (Python's stable sort, modelled by the
stable `List.insertionSort`),
then return the first not-yet-visited item, recording its signature in
`visited_signatures` and appending a log entry at selection time. -/
def get_next_interactive_element (candidates : List WebElement)
    (st : ExplorerState) : Option (WebElement × String) × ExplorerState :=
  let valid := candidates.filterMap (passesFilter st.visited)
  let sorted := List.insertionSort elemLeP valid
  match sorted.find? (fun v => !(st.visited.contains v.signature)) with
  | none => (none, st)
  | some item =>
    (some (item.element, item.textLabel),
     { visited := item.signature :: st.visited,
       log := st.log ++ [{ timestamp := st.log.length,
                           signature := item.signature,
                           text := item.textLabel }] })

/-- The explorer-state effect of one `get_next_interactive_element` call. -/
def explorerStep (st : ExplorerState) (candidates : List WebElement) : ExplorerState :=
  (get_next_interactive_element candidates st).2

/-- A whole session: one fresh `DeterministicExplorer` fed an arbitrary
sequence of DOM scans (each scan being the candidate list the driver returned
at that point in time). -/
def runScans (scans : List (List WebElement)) : ExplorerState :=
  scans.foldl explorerStep initialExplorerState

/-! ## Lemmas about the selection pipeline -/

theorem keyLe_refl (a : Int × Int × Int) : keyLe a a = true := by
  simp [keyLe]

theorem keyLe_trans (a b c : Int × Int × Int) :
    keyLe a b = true → keyLe b c = true → keyLe a c = true := by
  obtain ⟨a1, a2, a3⟩ := a
  obtain ⟨b1, b2, b3⟩ := b
  obtain ⟨c1, c2, c3⟩ := c
  simp only [keyLe, Bool.or_eq_true, Bool.and_eq_true, decide_eq_true_eq, beq_iff_eq]
  omega

theorem keyLe_total (a b : Int × Int × Int) : (keyLe a b || keyLe b a) = true := by
  obtain ⟨a1, a2, a3⟩ := a
  obtain ⟨b1, b2, b3⟩ := b
  simp only [keyLe, Bool.or_eq_true, Bool.and_eq_true, decide_eq_true_eq, beq_iff_eq]
  omega

theorem elemLe_trans (a b c : ValidElem) :
    elemLe a b → elemLe b c → elemLe a c := by
  exact keyLe_trans _ _ _

theorem elemLe_total (a b : ValidElem) : (elemLe a b || elemLe b a) = true :=
  keyLe_total _ _

instance : IsTrans ValidElem elemLeP :=
  ⟨fun a b c hab hbc => keyLe_trans _ _ _ hab hbc⟩

instance : IsTotal ValidElem elemLeP :=
  ⟨fun a b => Bool.or_eq_true_iff.mp (elemLe_total a b)⟩

/-- Every survivor of the filter pipeline has a signature outside `visited`. -/
theorem passesFilter_not_visited {visited : List String} {e : WebElement}
    {v : ValidElem} (h : passesFilter visited e = some v) :
    v.signature ∉ visited := by
  unfold passesFilter at h
  split at h
  · exact absurd h (by simp)
  split at h
  · exact absurd h (by simp)
  split at h
  · exact absurd h (by simp)
  split at h
  · exact absurd h (by simp)
  next sig hsig =>
    split at h
    · exact absurd h (by simp)
    next hmem =>
      cases Option.some.inj h
      exact hmem

/-- When at least one candidate survives the filter pipeline,
`get_next_interactive_element` returns exactly the head of the list sorted by
the composite key `(y // 100, x // 100, -area)`, and that element's key is
minimal among all survivors.  Determinism of the selection (identical
candidate list and state give the identical choice) is immediate because the
embedding is a pure function of `candidates` and `st`. -/
theorem get_next_selects_sorted_head (candidates : List WebElement)
    (st : ExplorerState)
    (hne : candidates.filterMap (passesFilter st.visited) ≠ []) :
    ∃ item,
      (List.insertionSort elemLeP (candidates.filterMap (passesFilter st.visited))).head? = some item ∧
      (get_next_interactive_element candidates st).1 = some (item.element, item.textLabel) ∧
      ∀ v ∈ candidates.filterMap (passesFilter st.visited), elemLe item v = true := by
  have hperm :=
    List.perm_insertionSort elemLeP (candidates.filterMap (passesFilter st.visited))
  have hsne : List.insertionSort elemLeP (candidates.filterMap (passesFilter st.visited)) ≠ [] := by
    intro h0
    exact hne ((h0 ▸ hperm).symm.eq_nil)
  obtain ⟨item, tl, hcons⟩ := List.exists_cons_of_ne_nil hsne
  have hitem_mem : item ∈ candidates.filterMap (passesFilter st.visited) := by
    have hmm : item ∈ List.insertionSort elemLeP (candidates.filterMap (passesFilter st.visited)) := by
      simp [hcons]
    exact (List.mem_insertionSort elemLeP).mp hmm
  have hitem_nv : item.signature ∉ st.visited := by
    obtain ⟨e, _, he⟩ := List.mem_filterMap.mp hitem_mem
    exact passesFilter_not_visited he
  have hpred : (!(st.visited.contains item.signature)) = true := by
    simp only [Bool.not_eq_true', ← Bool.not_eq_true]
    intro hc
    exact hitem_nv (List.elem_iff.mp hc)
  have hfind : (List.insertionSort elemLeP (candidates.filterMap (passesFilter st.visited))).find?
      (fun v => !(st.visited.contains v.signature)) = some item := by
    rw [hcons]
    exact List.find?_cons_of_pos _ hpred
  refine ⟨item, by simp [hcons], ?_, ?_⟩
  · simp only [get_next_interactive_element, hfind]
  · intro v hv
    have hsorted : (List.insertionSort elemLeP
        (candidates.filterMap (passesFilter st.visited))).Pairwise elemLeP :=
      List.sorted_insertionSort elemLeP _
    have hv' : v ∈ List.insertionSort elemLeP (candidates.filterMap (passesFilter st.visited)) :=
      (List.mem_insertionSort elemLeP).mpr hv
    rw [hcons] at hv' hsorted
    rcases List.mem_cons.mp hv' with rfl | h
    · exact keyLe_refl _
    · exact (List.pairwise_cons.mp hsorted).1 v h

/-- The log/visited invariant maintained by every explorer step:
logged signatures are recorded in `visited` and are pairwise distinct. -/
def LogInvariant (st : ExplorerState) : Prop :=
  (∀ en ∈ st.log, en.signature ∈ st.visited) ∧
  (st.log.map LogEntry.signature).Nodup

theorem explorerStep_invariant (st : ExplorerState) (cs : List WebElement)
    (h : LogInvariant st) : LogInvariant (explorerStep st cs) := by
  obtain ⟨hsub, hnd⟩ := h
  unfold explorerStep get_next_interactive_element
  cases hfind : (List.insertionSort elemLeP (cs.filterMap (passesFilter st.visited))).find?
      (fun v => !(st.visited.contains v.signature)) with
  | none => simp only [hfind]; exact ⟨hsub, hnd⟩
  | some item =>
    simp only [hfind]
    have hpred := List.find?_some hfind
    have hnv : item.signature ∉ st.visited := by
      rw [Bool.not_eq_true'] at hpred
      intro hm
      have helem : List.elem item.signature st.visited = false := hpred
      rw [List.elem_eq_true_of_mem hm] at helem
      exact Bool.noConfusion helem
    constructor
    · intro en hen
      simp only [List.mem_append, List.mem_singleton] at hen
      rcases hen with hen | rfl
      · exact List.mem_cons_of_mem _ (hsub en hen)
      · exact List.mem_cons_self _ _
    · rw [List.map_append]
      rw [List.nodup_append]
      refine ⟨hnd, by simp, ?_⟩
      intro s hs
      have : s ∈ st.visited := by
        obtain ⟨en, hen, rfl⟩ := List.mem_map.mp hs
        exact hsub en hen
      simp only [List.map_cons, List.map_nil, List.mem_singleton]
      intro rfl_eq
      rw [rfl_eq] at this
      exact hnv this

theorem runScans_invariant (scans : List (List WebElement)) :
    ∀ st, LogInvariant st → LogInvariant (scans.foldl explorerStep st) := by
  induction scans with
  | nil => intro st h; exact h
  | cons cs rest ih =>
    intro st h
    exact ih _ (explorerStep_invariant st cs h)

/-! ## Claim theorems: exploration state machine -/

/-- C1: across one exploration session (one `DeterministicExplorer` instance,
fed any sequence of DOM scans), no two entries of `interaction_log` share a
signature: signatures are added to `visited_signatures` and logged at
selection time, and a visited signature is never selected again. -/
theorem C1_log_signatures_nodup (scans : List (List WebElement)) :
    ((runScans scans).log.map LogEntry.signature).Nodup :=
  (runScans_invariant scans initialExplorerState ⟨by simp [initialExplorerState], by
    simp [initialExplorerState]⟩).2

/-- C2: for every candidate set surviving the filter pipeline (displayed,
enabled, safe, non-null signature, unvisited), the selection is the head of
the survivors sorted by `(y // 100, x // 100, -area)`, whose key is minimal
among all survivors; the embedding being a pure function, identical DOM state
and visited set always yield the identical selection. -/
theorem C2_selection_is_sorted_minimum (candidates : List WebElement)
    (st : ExplorerState)
    (hne : candidates.filterMap (passesFilter st.visited) ≠ []) :
    ∃ item,
      (List.insertionSort elemLeP (candidates.filterMap (passesFilter st.visited))).head? = some item ∧
      (get_next_interactive_element candidates st).1 = some (item.element, item.textLabel) ∧
      ∀ v ∈ candidates.filterMap (passesFilter st.visited), elemLe item v = true :=
  get_next_selects_sorted_head candidates st hne

/-- A concrete three-candidate scan (spec scenario 3 layout) on which
`C2_selection_is_sorted_minimum` is instantiated. -/
def demoCandidates : List WebElement :=
  [{ text := "b", ariaLabel := none, nameAttr := none, idAttr := none, role := none,
     tag := "a", locX := 200, locY := 50, sizeW := 10, sizeH := 5,
     displayed := true, enabled := true, stale := false },
   { text := "a", ariaLabel := none, nameAttr := none, idAttr := none, role := none,
     tag := "a", locX := 10, locY := 50, sizeW := 10, sizeH := 5,
     displayed := true, enabled := true, stale := false },
   { text := "c", ariaLabel := none, nameAttr := none, idAttr := none, role := none,
     tag := "a", locX := 10, locY := 300, sizeW := 10, sizeH := 5,
     displayed := true, enabled := true, stale := false }]

/-- Witness for C2 at a concrete candidate list and the fresh state. -/
theorem C2_selection_witness :
    ∃ item,
      (List.insertionSort elemLeP
          (demoCandidates.filterMap (passesFilter initialExplorerState.visited))).head? = some item ∧
      (get_next_interactive_element demoCandidates initialExplorerState).1 =
        some (item.element, item.textLabel) ∧
      ∀ v ∈ demoCandidates.filterMap (passesFilter initialExplorerState.visited),
        elemLe item v = true :=
  C2_selection_is_sorted_minimum demoCandidates initialExplorerState (by decide)

/-- C9 (amended): `is_safe_element` fails exactly when an attribute read
raises, when the safety text chain — visible text, then `aria-label`, then
`name`, then the empty string (the `id` attribute is *not* consulted, unlike
the signature chain) — contains a denylist keyword case-insensitively, or when
the role is `alertdialog`/`dialog`; every other element is safe. -/
theorem C9_is_safe_element_characterization (e : WebElement) :
    is_safe_element e = false ↔
      (e.stale = true ∨
       (∃ bad ∈ avoid_keywords, containsSub (safeText e) bad = true) ∨
       e.role = some "alertdialog" ∨ e.role = some "dialog") := by
  unfold is_safe_element
  split
  next hstale => exact iff_of_true rfl (Or.inl hstale)
  next hstale =>
    split
    next hkw =>
      simp only [List.any_eq_true] at hkw
      exact iff_of_true rfl (Or.inr (Or.inl hkw))
    next hkw =>
      simp only [List.any_eq_true] at hkw
      split
      next hrole =>
        simp only [Bool.or_eq_true, beq_iff_eq] at hrole
        exact iff_of_true rfl (Or.inr (Or.inr hrole))
      next hrole =>
        simp only [Bool.or_eq_true, beq_iff_eq, not_or] at hrole
        apply iff_of_false (by simp)
        rintro (hh | hh | hh | hh)
        · exact hstale hh
        · exact hkw hh
        · exact hrole.1 hh
        · exact hrole.2 hh

/-- An element whose only identifying attribute is `id="delete"`. -/
def elemDeleteId : WebElement :=
  { text := "", ariaLabel := none, nameAttr := none, idAttr := some "delete",
    role := none, tag := "button", locX := 10, locY := 20, sizeW := 30,
    sizeH := 10, displayed := true, enabled := true, stale := false }

/-- C9 counterexample: the claim's "chosen text" is the signature-derivation
chain (text → aria-label → name → id → "element"); for this element that
chosen text is `"delete"`, a denylist word, yet `is_safe_element` returns
`True`, because its safety chain stops at `name` and never reads `id`. -/
theorem C9_counterexample_id_fallback :
    containsSub (lowerStr (chosenTextSig elemDeleteId)) "delete" = true ∧
    is_safe_element elemDeleteId = true ∧
    get_element_signature elemDeleteId = some "button_delete_10_20" := by
  refine ⟨by decide, by decide, by decide⟩

/-! ## `AutoDocEngine.run_web_exploration` (lines 395-488)

The browser is abstracted as a deterministic transition system `Driver D`:
`scan` is the concatenated result of the six `find_elements` queries,
`clickOk`/`afterClick` model `scrollIntoView` + `element.click()` (which may
raise, caught by the `except` of the loop body), and `captureOk` models
`ScreenshotCapture.capture_web_screenshot` (which returns a success flag and
never raises).  Screenshots are represented by their `screenshot_count` index
at capture time. -/
structure Driver (D : Type) where
  scan : D → List WebElement
  clickOk : D → WebElement → Bool
  afterClick : D → WebElement → D
  captureOk : D → Bool

/-- The Phase-2 `for i in range(Config.MAX_SCREENSHOTS - screenshot_count)`
loop (lines 453-482).  `fuel` is the iteration count, fixed at loop entry;
a failed click or a failed capture consumes the iteration without appending
(`except: continue` / the `if` around `screenshots.append`). -/
def explorationLoop {D : Type} (drv : Driver D) :
    Nat → D → ExplorerState → Nat → List Nat → List Nat
  | 0, _, _, _, shots => shots
  | fuel + 1, d, st, count, shots =>
    match get_next_interactive_element (drv.scan d) st with
    | (none, _) => shots
    | (some (el, _), st2) =>
      if drv.clickOk d el then
        let d2 := drv.afterClick d el
        if drv.captureOk d2 then
          explorationLoop drv fuel d2 st2 (count + 1) (shots ++ [count])
        else
          explorationLoop drv fuel d2 st2 count shots
      else
        explorationLoop drv fuel d st2 count shots

/-- The outcome of `run_web_exploration`: the returned `screenshots` list and
the value of the class-level `Config.MAX_SCREENSHOTS` after the call (the
method's only write to shared state, line 396-397). -/
structure RunOutcome where
  screenshots : List Nat
  maxScreenshotsConfig : Nat
deriving DecidableEq

/-- `Config.MAX_SCREENSHOTS` after the `if max_screenshots:` guard: a Python
truthiness test, so `None` *and* `0` leave the class attribute unchanged. -/
def configAfter (cfg : Nat) (maxScreenshots : Option Nat) : Nat :=
  match maxScreenshots with
  | none => cfg
  | some n => if n = 0 then cfg else n

/-- The screenshot list produced for an effective `Config.MAX_SCREENSHOTS`
value `cfg2`: the unconditional Phase-1 initial capture (lines 433-440) sets
`screenshot_count` to 1 and the list to `[0]` when it succeeds (0 and `[]`
otherwise), then Phase 2 runs only under the guard
`screenshot_count < Config.MAX_SCREENSHOTS` (line 443), with the loop range
`Config.MAX_SCREENSHOTS - screenshot_count` fixed at entry (line 453). -/
def runShots {D : Type} (cfg2 : Nat) (drv : Driver D) (d0 : D) : List Nat :=
  if drv.captureOk d0 then
    (if 1 < cfg2 then explorationLoop drv (cfg2 - 1) d0 initialExplorerState 1 [0] else [0])
  else
    (if 0 < cfg2 then explorationLoop drv cfg2 d0 initialExplorerState 0 [] else [])

/-- `AutoDocEngine.run_web_exploration(url, max_screenshots)` (lines 395-488),
from the point where a driver exists: optional mutation of
`Config.MAX_SCREENSHOTS` (truthiness-guarded), a fresh `DeterministicExplorer`,
then the capture phases of `runShots` under the updated class config. -/
def run_web_exploration {D : Type} (cfg : Nat) (maxScreenshots : Option Nat)
    (drv : Driver D) (d0 : D) : RunOutcome :=
  { screenshots := runShots (configAfter cfg maxScreenshots) drv d0,
    maxScreenshotsConfig := configAfter cfg maxScreenshots }

/-- Each `explorationLoop` iteration appends at most one capture. -/
theorem explorationLoop_length_le {D : Type} (drv : Driver D) :
    ∀ (fuel : Nat) (d : D) (st : ExplorerState) (count : Nat) (shots : List Nat),
      (explorationLoop drv fuel d st count shots).length ≤ shots.length + fuel := by
  intro fuel
  induction fuel with
  | zero => intro d st count shots; simp [explorationLoop]
  | succ n ih =>
    intro d st count shots
    unfold explorationLoop
    cases hnext : get_next_interactive_element (drv.scan d) st with
    | mk sel st2 =>
      cases sel with
      | none => simp
      | some p =>
        obtain ⟨el, txt⟩ := p
        simp only
        split
        · split
          · calc (explorationLoop drv n _ _ _ _).length
                ≤ (shots ++ [count]).length + n := ih _ _ _ _
              _ ≤ shots.length + (n + 1) := by
                  simp only [List.length_append, List.length_cons, List.length_nil]
                  omega
          · exact le_trans (ih _ _ _ _) (by omega)
        · exact le_trans (ih _ _ _ _) (by omega)

/-- A loop whose clicks always fail never appends anything. -/
theorem explorationLoop_all_clicks_fail {D : Type} (drv : Driver D)
    (hfail : ∀ d el, drv.clickOk d el = false) :
    ∀ (fuel : Nat) (d : D) (st : ExplorerState) (count : Nat) (shots : List Nat),
      explorationLoop drv fuel d st count shots = shots := by
  intro fuel
  induction fuel with
  | zero => intro d st count shots; simp [explorationLoop]
  | succ n ih =>
    intro d st count shots
    unfold explorationLoop
    cases hnext : get_next_interactive_element (drv.scan d) st with
    | mk sel st2 =>
      cases sel with
      | none => simp
      | some p =>
        obtain ⟨el, txt⟩ := p
        simp only [hfail d el, if_false]
        exact ih _ _ _ _

/-- C3 (amended): for every *positive* `maxCaptures`, `run_web_exploration`
returns at most `maxCaptures` screenshots — one initial baseline plus at most
`maxCaptures - 1` interaction-driven captures when the baseline succeeds — for
*every* driver behaviour, in particular when safe unvisited candidates never
run out (the Phase-2 iteration count is fixed at loop entry, so the loop
always terminates); an always-failing action consumes its iterations without
appending anything.  (For `maxCaptures = 0` the bound fails, see the
counterexample: truthiness leaves the old `Config.MAX_SCREENSHOTS` in force
while the Phase-1 capture is unconditional.) -/
theorem C3_capture_bound {D : Type} (cfg : Nat) (n : Nat) (drv : Driver D)
    (d0 : D) (hn : 0 < n) :
    (run_web_exploration cfg (some n) drv d0).screenshots.length ≤ n ∧
    (drv.captureOk d0 = true →
      ∃ rest, (run_web_exploration cfg (some n) drv d0).screenshots = 0 :: rest ∧
        rest.length ≤ n - 1) ∧
    ((∀ d el, drv.clickOk d el = false) →
      (run_web_exploration cfg (some n) drv d0).screenshots.length ≤ 1) := by
  have hcfg : configAfter cfg (some n) = n := by
    unfold configAfter
    simp [Nat.pos_iff_ne_zero.mp hn]
  have hpre : ∀ fuel d st count (shots : List Nat),
      ∃ rest, explorationLoop drv fuel d st count (0 :: shots) = 0 :: rest ∧
        rest.length ≤ shots.length + fuel := by
    intro fuel
    induction fuel with
    | zero =>
      intro d st count shots
      exact ⟨shots, by simp [explorationLoop], by omega⟩
    | succ m ih =>
      intro d st count shots
      unfold explorationLoop
      cases hnext : get_next_interactive_element (drv.scan d) st with
      | mk sel st2 =>
        cases sel with
        | none => exact ⟨shots, by simp, by omega⟩
        | some p =>
          obtain ⟨el, txt⟩ := p
          simp only
          split
          · split
            · obtain ⟨rest, h1, h2⟩ := ih (drv.afterClick d el) st2 (count + 1) (shots ++ [count])
              refine ⟨rest, ?_, ?_⟩
              · rw [List.cons_append]
                exact h1
              · simp only [List.length_append, List.length_cons, List.length_nil] at h2
                omega
            · obtain ⟨rest, h1, h2⟩ := ih (drv.afterClick d el) st2 count shots
              exact ⟨rest, h1, by omega⟩
          · obtain ⟨rest, h1, h2⟩ := ih d st2 count shots
            exact ⟨rest, h1, by omega⟩
  refine ⟨?_, ?_, ?_⟩
  · simp only [run_web_exploration, runShots, hcfg]
    cases hcap : drv.captureOk d0 with
    | true =>
      simp only [if_true]
      split
      · have hlen := explorationLoop_length_le drv (n - 1) d0 initialExplorerState 1 [0]
        simp only [List.length_cons, List.length_nil] at hlen
        omega
      · simpa using hn
    | false =>
      simp only [Bool.false_eq_true, if_false, hn, if_true]
      have hlen := explorationLoop_length_le drv n d0 initialExplorerState 0 []
      simp only [List.length_nil] at hlen
      omega
  · intro hcap
    simp only [run_web_exploration, runShots, hcfg, hcap, if_true]
    split
    · obtain ⟨rest, h1, h2⟩ := hpre (n - 1) d0 initialExplorerState 1 []
      exact ⟨rest, h1, by simpa using h2⟩
    · exact ⟨[], rfl, by simp⟩
  · intro hfail
    simp only [run_web_exploration, runShots, hcfg]
    cases hcap : drv.captureOk d0 with
    | true =>
      simp only [if_true]
      split
      · rw [explorationLoop_all_clicks_fail drv hfail]
        simp
      · simp
    | false =>
      simp only [Bool.false_eq_true, if_false, hn, if_true]
      rw [explorationLoop_all_clicks_fail drv hfail]
      simp

/-- A driver over a page with no interactive elements whose captures always
succeed. -/
def trivialDriver : Driver Nat :=
  { scan := fun _ => [], clickOk := fun _ _ => true,
    afterClick := fun d _ => d, captureOk := fun _ => true }

/-- Witness for C3 at `cfg = 5`, `maxCaptures = 1` and a concrete driver. -/
theorem C3_capture_bound_witness :
    (0 < 1) ∧
    ((run_web_exploration 5 (some 1) trivialDriver 0).screenshots.length ≤ 1 ∧
     (trivialDriver.captureOk 0 = true →
       ∃ rest, (run_web_exploration 5 (some 1) trivialDriver 0).screenshots = 0 :: rest ∧
         rest.length ≤ 1 - 1) ∧
     ((∀ d el, trivialDriver.clickOk d el = false) →
       (run_web_exploration 5 (some 1) trivialDriver 0).screenshots.length ≤ 1)) :=
  ⟨by decide, C3_capture_bound 5 1 trivialDriver 0 (by decide)⟩

/-- An always-clickable page that presents one fresh safe button per DOM
state, so that safe unvisited candidates never run out. -/
def freshButton (d : Nat) : WebElement :=
  { text := "go", ariaLabel := none, nameAttr := none, idAttr := none,
    role := none, tag := "button", locX := 100 * (d : Int), locY := 0,
    sizeW := 10, sizeH := 5, displayed := true, enabled := true, stale := false }

/-- A driver with inexhaustible fresh candidates and all-successful actions
and captures. -/
def busyDriver : Driver Nat :=
  { scan := fun d => [freshButton d], clickOk := fun _ _ => true,
    afterClick := fun d _ => d + 1, captureOk := fun _ => true }

/-- C3 counterexample: with `max_screenshots = 0` the claim's bound
"at most `maxCaptures` screenshots" fails: `if max_screenshots:` is a
truthiness test, so the argument 0 leaves the previously configured
`Config.MAX_SCREENSHOTS = 5` in force and five screenshots are produced. -/
theorem C3_counterexample_zero_max :
    (run_web_exploration 5 (some 0) busyDriver 0).screenshots.length = 5 ∧
    ¬ ((run_web_exploration 5 (some 0) busyDriver 0).screenshots.length ≤ 0) := by
  refine ⟨by decide, by decide⟩

/-- The capture bound of one run at any positive effective config value. -/
theorem runShots_length_le {D : Type} (cfg2 : Nat) (h : 0 < cfg2)
    (drv : Driver D) (d0 : D) : (runShots cfg2 drv d0).length ≤ cfg2 := by
  unfold runShots
  cases hcap : drv.captureOk d0 with
  | true =>
    simp only [if_true]
    split
    · have hlen := explorationLoop_length_le drv (cfg2 - 1) d0 initialExplorerState 1 [0]
      simp only [List.length_cons, List.length_nil] at hlen
      omega
    · simpa using h
  | false =>
    simp only [Bool.false_eq_true, if_false, h, if_true]
    have hlen := explorationLoop_length_le drv cfg2 d0 initialExplorerState 0 []
    simp only [List.length_nil] at hlen
    omega

/-- C10 (amended): a *truthy* (non-`None`, non-zero) `max_screenshots`
argument overwrites the class-level `Config.MAX_SCREENSHOTS`, and the new
value persists: a later `run_web_exploration` call with no argument — on this
or any other `AutoDocEngine` instance, since the attribute lives on the shared
`Config` class — runs under the overwritten limit `n`.  (`max_screenshots = 0`
does *not* mutate the config, see the counterexample.) -/
theorem C10_config_mutation_persists {D D2 : Type} (cfg n : Nat) (hn : n ≠ 0)
    (drv : Driver D) (d0 : D) (drv2 : Driver D2) (d2 : D2) :
    (run_web_exploration cfg (some n) drv d0).maxScreenshotsConfig = n ∧
    (run_web_exploration
        (run_web_exploration cfg (some n) drv d0).maxScreenshotsConfig
        none drv2 d2).maxScreenshotsConfig = n ∧
    (run_web_exploration
        (run_web_exploration cfg (some n) drv d0).maxScreenshotsConfig
        none drv2 d2).screenshots.length ≤ n := by
  have hcfg : configAfter cfg (some n) = n := by
    unfold configAfter
    simp [hn]
  refine ⟨?_, ?_, ?_⟩
  · simp only [run_web_exploration, hcfg]
  · simp only [run_web_exploration, hcfg, configAfter]
    rw [if_neg hn]
  · simp only [run_web_exploration, hcfg, configAfter]
    rw [if_neg hn]
    exact runShots_length_le n (Nat.pos_of_ne_zero hn) drv2 d2

/-- Witness for C10 at `cfg = 5`, argument `2`, concrete drivers. -/
theorem C10_config_mutation_witness :
    (run_web_exploration 5 (some 2) trivialDriver 0).maxScreenshotsConfig = 2 ∧
    (run_web_exploration
        (run_web_exploration 5 (some 2) trivialDriver 0).maxScreenshotsConfig
        none busyDriver 0).maxScreenshotsConfig = 2 ∧
    (run_web_exploration
        (run_web_exploration 5 (some 2) trivialDriver 0).maxScreenshotsConfig
        none busyDriver 0).screenshots.length ≤ 2 :=
  C10_config_mutation_persists 5 2 (by decide) trivialDriver 0 busyDriver 0

/-- C10 counterexample: `max_screenshots = 0` is non-`None` yet does not
mutate `Config.MAX_SCREENSHOTS` — the guard `if max_screenshots:` tests
truthiness, not `is not None` — so the previous limit 5 stays in force. -/
theorem C10_counterexample_zero_argument :
    (run_web_exploration 5 (some 0) trivialDriver 0).maxScreenshotsConfig = 5 ∧
    (run_web_exploration 5 (some 0) trivialDriver 0).maxScreenshotsConfig ≠ 0 := by
  refine ⟨by decide, by decide⟩

/-! ## Image comparison (`process_run.py`)

Python floats become exact rationals.  `np.divide(num, den, out=zeros,
where=den != 0)` maps to `ℚ` division, whose value at a zero denominator is 0.
The OpenCV primitives that are external library code — `cv2.imdecode` (plus
the BGR→RGB conversion), the `cv2.resize(..., INTER_AREA)` resampling of
pixel content, the RGB→grayscale pixel map, the 11×11 σ=1.5 Gaussian kernel,
and `cv2.imencode` — enter the embedding as the components of `CVPrims`; the
arithmetic of `compute_ssim_and_diff` itself is translated literally.  The
Gaussian-blur facts the proofs use (weights nonnegative, summing to 1) are
stated as the explicit hypothesis `GoodKernel`, true of any normalized
convolution kernel. -/

/-- Raw encoded image bytes. -/
abbrev ByteBuf := List Nat

/-- One RGB pixel. -/
abbrev RGBPix := ℚ × ℚ × ℚ

/-- A decoded color image: dimensions plus a pixel map. -/
structure Img where
  h : Nat
  w : Nat
  px : Nat → Nat → RGBPix

/-- A grayscale float array (`gray1`/`gray2` in the source). -/
structure Gray where
  h : Nat
  w : Nat
  px : Nat → Nat → ℚ

/-- The external OpenCV primitives `compute_ssim_and_diff` is built on. -/
structure CVPrims where
  imdecodeRGB : ByteBuf → Option Img
  resamplePx : Nat → Nat → Img → Nat → Nat → RGBPix
  grayPx : RGBPix → ℚ
  kernel : List (Int × Int × ℚ)
  encodePng : (Nat → Nat → Nat) → Nat → Nat → Option ByteBuf

/-- `_bytes_to_rgb_array` (lines 138-145): decode or raise
`ValueError('Could not decode image bytes')`. -/
def _bytes_to_rgb_array (cv : CVPrims) (b : ByteBuf) : Except String Img :=
  match cv.imdecodeRGB b with
  | none => Except.error "Could not decode image bytes"
  | some a => Except.ok a

/-- `cv2.resize(img, (w, h), interpolation=cv2.INTER_AREA)`: the output
dimensions are exact; the resampled content is the `resamplePx` primitive. -/
def resizeTo (cv : CVPrims) (w h : Nat) (a : Img) : Img :=
  { h := h, w := w, px := cv.resamplePx w h a }

/-- `cv2.cvtColor(img, cv2.COLOR_RGB2GRAY).astype(np.float32)`: a pixelwise
map preserving dimensions. -/
def toGray (cv : CVPrims) (a : Img) : Gray :=
  { h := a.h, w := a.w, px := fun i j => cv.grayPx (a.px i j) }

/-- Pixelwise product of two grayscale arrays (`gray1 * gray1` etc.). -/
def gmul (g1 g2 : Gray) : Gray :=
  { h := g1.h, w := g1.w, px := fun i j => g1.px i j * g2.px i j }

/-- Border handling for the convolution: indexes are clamped to the image
(`cv2` replicates/reflects borders; either way every sample is a pixel of the
image, which is all the proofs use). -/
def clampIdx (n : Nat) (i : Int) : Nat := (min (max i 0) ((n : Int) - 1)).toNat

/-- `cv2.GaussianBlur(g, (11, 11), 1.5)` at one pixel: a weighted sum of
pixel samples using the kernel of `CVPrims`. -/
def blurPx (cv : CVPrims) (g : Gray) (i j : Nat) : ℚ :=
  (cv.kernel.map (fun t =>
    t.2.2 * g.px (clampIdx g.h ((i : Int) + t.1)) (clampIdx g.w ((j : Int) + t.2.1)))).sum

/-- `C1 = (0.01 * 255) ** 2` (line 169). -/
def ssimC1 : ℚ := ((1 / 100) * 255) ^ 2

/-- `C2 = (0.03 * 255) ** 2` (line 170). -/
def ssimC2 : ℚ := ((3 / 100) * 255) ^ 2

/-- One pixel of the SSIM map (lines 176-190): local means, variances and
covariance via Gaussian blur, then
`((2 μ1 μ2 + C1)(2 σ12 + C2)) / ((μ1² + μ2² + C1)(σ1² + σ2² + C2))`, with the
`np.divide ... where=den != 0` convention giving 0 at a zero denominator
(which is exactly `ℚ` division by zero). -/
def ssimPx (cv : CVPrims) (g1 g2 : Gray) (i j : Nat) : ℚ :=
  let mu1 := blurPx cv g1 i j
  let mu2 := blurPx cv g2 i j
  let sigma1Sq := blurPx cv (gmul g1 g1) i j - mu1 * mu1
  let sigma2Sq := blurPx cv (gmul g2 g2) i j - mu2 * mu2
  let sigma12 := blurPx cv (gmul g1 g2) i j - mu1 * mu2
  ((2 * mu1 * mu2 + ssimC1) * (2 * sigma12 + ssimC2)) /
    ((mu1 * mu1 + mu2 * mu2 + ssimC1) * (sigma1Sq + sigma2Sq + ssimC2))

/-- `score = float(np.mean(ssim_map))` (line 192): the arithmetic mean of the
SSIM map over all `h*w` pixels. -/
def meanSSIM (cv : CVPrims) (g1 g2 : Gray) : ℚ :=
  (∑ i ∈ Finset.range g1.h, ∑ j ∈ Finset.range g1.w, ssimPx cv g1 g2 i j) /
    ((g1.h * g1.w : Nat) : ℚ)

/-- `diff_norm` (lines 195-196): `(np.clip(1 - ssim_map, 0, 1) * 255)` cast to
`uint8` (truncation = floor of a nonnegative value). -/
def dissim8 (cv : CVPrims) (g1 g2 : Gray) (i j : Nat) : Nat :=
  (Int.floor ((min 1 (max 0 (1 - ssimPx cv g1 g2 i j))) * (255 : ℚ))).toNat

/-- The binarization of line 199, `cv2.threshold(diff_norm, 30, 255,
cv2.THRESH_BINARY)`: foreground exactly when the 8-bit dissimilarity exceeds
30. -/
def diffFg (cv : CVPrims) (g1 g2 : Gray) : Nat → Nat → Bool :=
  fun i j => decide (30 < dissim8 cv g1 g2 i j)

/-! ### Connected components and regions (lines 199-208)

`cv2.findContours(..., cv2.RETR_EXTERNAL, ...)` followed by
`cv2.boundingRect` per contour is modelled as: enumerate the connected
components (8-connectivity) of the binarized foreground and take each
component's axis-aligned bounding box.  (A contour's bounding rectangle is
the bounding rectangle of its connected component.) -/

/-- A change region as built on line 208 (`x`, `y`, `width`, `height`,
`area = width * height`). -/
structure Region where
  x : Nat
  y : Nat
  width : Nat
  height : Nat
  area : Nat
deriving DecidableEq

/-- The set of foreground pixels of an `h × w` binary image. -/
def FgSet (h w : Nat) (fg : Nat → Nat → Bool) : Finset (Nat × Nat) :=
  (Finset.range h ×ˢ Finset.range w).filter (fun p => fg p.1 p.2 = true)

/-- 8-connectivity adjacency of two distinct pixels. -/
def adjB (p q : Nat × Nat) : Bool :=
  decide (p ≠ q ∧ (p.1 : Int) - q.1 ≤ 1 ∧ (q.1 : Int) - p.1 ≤ 1 ∧
          (p.2 : Int) - q.2 ≤ 1 ∧ (q.2 : Int) - p.2 ≤ 1)

/-- One step of region growing: add every foreground pixel adjacent to the
current set. -/
def expandCC (P S : Finset (Nat × Nat)) : Finset (Nat × Nat) :=
  S ∪ P.filter (fun q => ∃ p ∈ S, adjB p q = true)

/-- The connected component of seed `p`: iterate region growing `P.card`
times, enough to reach the fixpoint. -/
def closureFrom (P : Finset (Nat × Nat)) (p : Nat × Nat) : Finset (Nat × Nat) :=
  (expandCC P)^[P.card] {p}

/-- The foreground pixels in row-major order (the deterministic traversal
order of the component enumeration). -/
def rowMajorFg (h w : Nat) (fg : Nat → Nat → Bool) : List (Nat × Nat) :=
  (List.range (h * w)).filterMap (fun t =>
    if fg (t / w) (t % w) then some (t / w, t % w) else none)

/-- Enumerate components: walk the foreground pixels, emitting the component
of each pixel not already covered by an earlier component. -/
def componentsAux (P : Finset (Nat × Nat)) :
    List (Nat × Nat) → Finset (Nat × Nat) → List (Finset (Nat × Nat))
  | [], _ => []
  | p :: rest, seen =>
    if p ∈ seen then componentsAux P rest seen
    else closureFrom P p :: componentsAux P rest (seen ∪ closureFrom P p)

/-- All connected components of the binarized image. -/
def componentsOf (h w : Nat) (fg : Nat → Nat → Bool) : List (Finset (Nat × Nat)) :=
  componentsAux (FgSet h w fg) (rowMajorFg h w fg) ∅

/-- `cv2.boundingRect`: the axis-aligned bounding box of a component, with
`area = width * height` as computed on lines 204-205. -/
def bboxOf (C : Finset (Nat × Nat)) : Region :=
  let ys := C.image Prod.fst
  let xs := C.image Prod.snd
  let y0 := ys.min.untop' 0
  let x0 := xs.min.untop' 0
  let y1 := ys.max.unbot' 0
  let x1 := xs.max.unbot' 0
  { x := x0, y := y0, width := x1 + 1 - x0, height := y1 + 1 - y0,
    area := (x1 + 1 - x0) * (y1 + 1 - y0) }

/-- Lines 202-208: bounding boxes of all components, discarding those with
`area < 50`. -/
def extractRegions (h w : Nat) (fg : Nat → Nat → Bool) : List Region :=
  ((componentsOf h w fg).map bboxOf).filter (fun r => decide (¬ r.area < 50))

/-- The value returned by `compute_ssim_and_diff`:
`(similarity_percent, regions, diff_bytes)`. -/
structure SSIMResult where
  similarityPercent : ℚ
  regions : List Region
  diffBytes : Option ByteBuf
deriving DecidableEq

/-- The decode/resize/grayscale prefix of `compute_ssim_and_diff`
(lines 153-166): decode both buffers, resize both to the common minimum size
with area resampling, convert to grayscale; `none` when either decode fails. -/
def alignedGrays (cv : CVPrims) (b1 b2 : ByteBuf) : Option (Gray × Gray) :=
  match cv.imdecodeRGB b1, cv.imdecodeRGB b2 with
  | some a1, some a2 =>
    some (toGray cv (resizeTo cv (min a1.w a2.w) (min a1.h a2.h) a1),
          toGray cv (resizeTo cv (min a1.w a2.w) (min a1.h a2.h) a2))
  | _, _ => none

/-- `compute_ssim_and_diff` (lines 148-216): raise
`ValueError('Could not decode image bytes')` when a decode fails, else return
the similarity percentage (`score * 100`), the area-filtered change regions
and the PNG-encoded diff image (`None` when `cv2.imencode` reports failure). -/
def compute_ssim_and_diff (cv : CVPrims) (b1 b2 : ByteBuf) :
    Except String SSIMResult :=
  match alignedGrays cv b1 b2 with
  | none => Except.error "Could not decode image bytes"
  | some (g1, g2) =>
    Except.ok
      { similarityPercent := meanSSIM cv g1 g2 * 100,
        regions := extractRegions g1.h g1.w (diffFg cv g1 g2),
        diffBytes := cv.encodePng (fun i j => dissim8 cv g1 g2 i j) g1.h g1.w }

/-- The regions of a comparison run (`[]` when the run raises). -/
def runRegions (cv : CVPrims) (b1 b2 : ByteBuf) : List Region :=
  match compute_ssim_and_diff cv b1 b2 with
  | Except.ok r => r.regions
  | Except.error _ => []

/-- The similarity percentage of a comparison run (0 when the run raises). -/
def runPercent (cv : CVPrims) (b1 b2 : ByteBuf) : ℚ :=
  match compute_ssim_and_diff cv b1 b2 with
  | Except.ok r => r.similarityPercent
  | Except.error _ => 0

/-- Whether a comparison run returns normally. -/
def runOk (cv : CVPrims) (b1 b2 : ByteBuf) : Bool :=
  match compute_ssim_and_diff cv b1 b2 with
  | Except.ok _ => true
  | Except.error _ => false

/-- The facts about the Gaussian kernel the SSIM identities rely on: its
weights are nonnegative and sum to 1 (true of `cv2.getGaussianKernel`, which
normalizes the 11×11 σ=1.5 kernel). -/
def GoodKernel (cv : CVPrims) : Prop :=
  (∀ t ∈ cv.kernel, 0 ≤ t.2.2) ∧ (cv.kernel.map (fun t => t.2.2)).sum = 1

/-- C8: `compute_ssim_and_diff` raises the decode error exactly when at least
one input buffer is not decodable; for every decodable pair it returns a
result without raising. -/
theorem C8_decode_error_iff (cv : CVPrims) (b1 b2 : ByteBuf) :
    (compute_ssim_and_diff cv b1 b2 = Except.error "Could not decode image bytes" ↔
      (cv.imdecodeRGB b1 = none ∨ cv.imdecodeRGB b2 = none)) ∧
    ((∃ r, compute_ssim_and_diff cv b1 b2 = Except.ok r) ↔
      (cv.imdecodeRGB b1 ≠ none ∧ cv.imdecodeRGB b2 ≠ none)) := by
  cases h1 : cv.imdecodeRGB b1 with
  | none =>
    constructor
    · simp [compute_ssim_and_diff, alignedGrays, h1]
    · simp [compute_ssim_and_diff, alignedGrays, h1]
  | some a1 =>
    cases h2 : cv.imdecodeRGB b2 with
    | none =>
      constructor
      · simp [compute_ssim_and_diff, alignedGrays, h1, h2]
      · simp [compute_ssim_and_diff, alignedGrays, h1, h2]
    | some a2 =>
      constructor
      · simp [compute_ssim_and_diff, alignedGrays, h1, h2]
      · simp [compute_ssim_and_diff, alignedGrays, h1, h2]

/-! ### Algebraic facts about Gaussian-weighted local statistics

For a convex-combination kernel (weights nonnegative, summing to 1) the local
variance `blur(x²) − blur(x)²` is pointwise nonnegative and the local
covariance satisfies `2 σ12 ≤ σ1² + σ2²`; these give `den > 0`, the SSIM
identity `SSIM(g, g) = 1` and the upper bound `SSIM ≤ 1`. -/

theorem ssimC1_pos : (0 : ℚ) < ssimC1 := by norm_num [ssimC1]

theorem ssimC2_pos : (0 : ℚ) < ssimC2 := by norm_num [ssimC2]

/-- Weighted Cauchy–Schwarz for lists of (weight, value) pairs:
`(Σ w·v)² ≤ (Σ w) · (Σ w·v²)` when all weights are nonnegative. -/
theorem wsum_sq_le (l : List (ℚ × ℚ)) (hw : ∀ t ∈ l, 0 ≤ t.1) :
    ((l.map fun t => t.1 * t.2).sum) ^ 2 ≤
      ((l.map fun t => t.1).sum) * ((l.map fun t => t.1 * t.2 ^ 2).sum) := by
  induction l with
  | nil => simp
  | cons a l ih =>
    have ha : 0 ≤ a.1 := hw a (List.mem_cons_self a l)
    have hw2 : ∀ t ∈ l, 0 ≤ t.1 := fun t ht => hw t (List.mem_cons_of_mem a ht)
    have hW : 0 ≤ (l.map fun t => t.1).sum := by
      apply List.sum_nonneg
      intro x hx
      obtain ⟨t, ht, rfl⟩ := List.mem_map.mp hx
      exact hw2 t ht
    have hS : 0 ≤ (l.map fun t => t.1 * t.2 ^ 2).sum := by
      apply List.sum_nonneg
      intro x hx
      obtain ⟨t, ht, rfl⟩ := List.mem_map.mp hx
      exact mul_nonneg (hw2 t ht) (sq_nonneg _)
    have hT := ih hw2
    simp only [List.map_cons, List.sum_cons]
    set W := (l.map fun t => t.1).sum with hWdef
    set T := (l.map fun t => t.1 * t.2).sum with hTdef
    set S := (l.map fun t => t.1 * t.2 ^ 2).sum with hSdef
    rcases eq_or_lt_of_le hW with hW0 | hWpos
    · have hTzero : T = 0 := by
        have h1 : T ^ 2 = 0 := by
          refine le_antisymm ?_ (sq_nonneg T)
          nlinarith
        exact pow_eq_zero_iff (by norm_num : (2 : ℕ) ≠ 0) |>.mp h1
      rw [hTzero, ← hW0]
      nlinarith [mul_nonneg ha hS]
    · have key : 0 ≤ W * ((a.1 + W) * (a.1 * a.2 ^ 2 + S) - (a.1 * a.2 + T) ^ 2) := by
        have e : W * ((a.1 + W) * (a.1 * a.2 ^ 2 + S) - (a.1 * a.2 + T) ^ 2)
            = a.1 * (W * S - T ^ 2) + a.1 * (W * a.2 - T) ^ 2 + W * (W * S - T ^ 2) := by
          ring
        rw [e]
        have h1 : 0 ≤ W * S - T ^ 2 := sub_nonneg.mpr hT
        exact add_nonneg (add_nonneg (mul_nonneg ha h1) (mul_nonneg ha (sq_nonneg _)))
          (mul_nonneg hW h1)
      nlinarith [key, hWpos]

/-- Linearity of weighted list sums over a value difference. -/
theorem wsum_sub (l : List (ℚ × ℚ × ℚ)) :
    (l.map fun t => t.1 * (t.2.1 - t.2.2)).sum =
      (l.map fun t => t.1 * t.2.1).sum - (l.map fun t => t.1 * t.2.2).sum := by
  induction l with
  | nil => simp
  | cons a l ih =>
    simp only [List.map_cons, List.sum_cons, ih]
    ring

/-- Expansion of a weighted sum of squared differences. -/
theorem wsum_sub_sq (l : List (ℚ × ℚ × ℚ)) :
    (l.map fun t => t.1 * (t.2.1 - t.2.2) ^ 2).sum =
      (l.map fun t => t.1 * t.2.1 ^ 2).sum + (l.map fun t => t.1 * t.2.2 ^ 2).sum -
        2 * (l.map fun t => t.1 * (t.2.1 * t.2.2)).sum := by
  induction l with
  | nil => simp
  | cons a l ih =>
    simp only [List.map_cons, List.sum_cons, ih]
    ring

/-- The (weight, sample₁, sample₂) list of one convolution window, shared by
all six blurred quantities at pixel `(i, j)` when the two grids have equal
dimensions. -/
def sampleList (cv : CVPrims) (g1 g2 : Gray) (i j : Nat) : List (ℚ × ℚ × ℚ) :=
  cv.kernel.map (fun t =>
    (t.2.2,
     g1.px (clampIdx g1.h ((i : Int) + t.1)) (clampIdx g1.w ((j : Int) + t.2.1)),
     g2.px (clampIdx g1.h ((i : Int) + t.1)) (clampIdx g1.w ((j : Int) + t.2.1))))

theorem sampleList_weights (cv : CVPrims) (g1 g2 : Gray) (i j : Nat) :
    ((sampleList cv g1 g2 i j).map fun t => t.1) = cv.kernel.map (fun t => t.2.2) := by
  simp [sampleList, List.map_map, Function.comp]

theorem sampleList_weights_nonneg (cv : CVPrims) (hker : GoodKernel cv)
    (g1 g2 : Gray) (i j : Nat) :
    ∀ t ∈ sampleList cv g1 g2 i j, 0 ≤ t.1 := by
  intro t ht
  obtain ⟨k, hk, rfl⟩ := List.mem_map.mp ht
  exact hker.1 k hk

theorem blurPx_fst_eq (cv : CVPrims) (g1 g2 : Gray) (i j : Nat) :
    blurPx cv g1 i j = ((sampleList cv g1 g2 i j).map fun t => t.1 * t.2.1).sum := by
  unfold blurPx sampleList
  rw [List.map_map]
  exact congrArg List.sum (List.map_congr_left fun t _ => rfl)

theorem blurPx_snd_eq (cv : CVPrims) (g1 g2 : Gray) (i j : Nat)
    (hh : g1.h = g2.h) (hw : g1.w = g2.w) :
    blurPx cv g2 i j = ((sampleList cv g1 g2 i j).map fun t => t.1 * t.2.2).sum := by
  unfold blurPx sampleList
  simp only [hh, hw]
  rw [List.map_map]
  exact congrArg List.sum (List.map_congr_left fun t _ => rfl)

theorem blurPx_fst_sq_eq (cv : CVPrims) (g1 g2 : Gray) (i j : Nat) :
    blurPx cv (gmul g1 g1) i j =
      ((sampleList cv g1 g2 i j).map fun t => t.1 * t.2.1 ^ 2).sum := by
  unfold blurPx sampleList
  rw [List.map_map]
  refine congrArg List.sum (List.map_congr_left fun t _ => ?_)
  simp only [gmul, Function.comp_apply]
  ring

theorem blurPx_snd_sq_eq (cv : CVPrims) (g1 g2 : Gray) (i j : Nat)
    (hh : g1.h = g2.h) (hw : g1.w = g2.w) :
    blurPx cv (gmul g2 g2) i j =
      ((sampleList cv g1 g2 i j).map fun t => t.1 * t.2.2 ^ 2).sum := by
  unfold blurPx sampleList
  simp only [gmul, hh, hw]
  rw [List.map_map]
  refine congrArg List.sum (List.map_congr_left fun t _ => ?_)
  simp only [Function.comp_apply]
  ring

theorem blurPx_cross_eq (cv : CVPrims) (g1 g2 : Gray) (i j : Nat) :
    blurPx cv (gmul g1 g2) i j =
      ((sampleList cv g1 g2 i j).map fun t => t.1 * (t.2.1 * t.2.2)).sum := by
  unfold blurPx sampleList
  rw [List.map_map]
  refine congrArg List.sum (List.map_congr_left fun t _ => ?_)
  simp only [gmul, Function.comp_apply]

/-- Pointwise nonnegativity of the local variance for a convex kernel. -/
theorem sigmaSq_nonneg (cv : CVPrims) (hker : GoodKernel cv) (g : Gray)
    (i j : Nat) :
    0 ≤ blurPx cv (gmul g g) i j - blurPx cv g i j * blurPx cv g i j := by
  have hcs := wsum_sq_le ((sampleList cv g g i j).map fun t => (t.1, t.2.1))
    (by
      intro t ht
      obtain ⟨u, hu, rfl⟩ := List.mem_map.mp ht
      exact sampleList_weights_nonneg cv hker g g i j u hu)
  have e1 : (((sampleList cv g g i j).map fun t => (t.1, t.2.1)).map fun t => t.1 * t.2) =
      (sampleList cv g g i j).map fun t => t.1 * t.2.1 := by
    rw [List.map_map]
    exact List.map_congr_left fun t _ => rfl
  have e2 : (((sampleList cv g g i j).map fun t => (t.1, t.2.1)).map fun t => t.1) =
      (sampleList cv g g i j).map fun t => t.1 := by
    rw [List.map_map]
    exact List.map_congr_left fun t _ => rfl
  have e3 : (((sampleList cv g g i j).map fun t => (t.1, t.2.1)).map fun t => t.1 * t.2 ^ 2) =
      (sampleList cv g g i j).map fun t => t.1 * t.2.1 ^ 2 := by
    rw [List.map_map]
    exact List.map_congr_left fun t _ => rfl
  rw [e1, e2, e3] at hcs
  have hwsum : ((sampleList cv g g i j).map fun t => t.1).sum = 1 := by
    rw [sampleList_weights]
    exact hker.2
  rw [blurPx_fst_sq_eq cv g g i j, blurPx_fst_eq cv g g i j]
  nlinarith [hcs, hwsum]

/-- Pointwise covariance bound `2 σ12 ≤ σ1² + σ2²` for a convex kernel and
equal-dimension grids. -/
theorem covariance_le (cv : CVPrims) (hker : GoodKernel cv) (g1 g2 : Gray)
    (hh : g1.h = g2.h) (hw : g1.w = g2.w) (i j : Nat) :
    2 * (blurPx cv (gmul g1 g2) i j - blurPx cv g1 i j * blurPx cv g2 i j) ≤
      (blurPx cv (gmul g1 g1) i j - blurPx cv g1 i j * blurPx cv g1 i j) +
      (blurPx cv (gmul g2 g2) i j - blurPx cv g2 i j * blurPx cv g2 i j) := by
  have hcs := wsum_sq_le ((sampleList cv g1 g2 i j).map fun t => (t.1, t.2.1 - t.2.2))
    (by
      intro t ht
      obtain ⟨u, hu, rfl⟩ := List.mem_map.mp ht
      exact sampleList_weights_nonneg cv hker g1 g2 i j u hu)
  have e1 : (((sampleList cv g1 g2 i j).map fun t => (t.1, t.2.1 - t.2.2)).map
        fun t => t.1 * t.2) =
      (sampleList cv g1 g2 i j).map fun t => t.1 * (t.2.1 - t.2.2) := by
    rw [List.map_map]
    exact List.map_congr_left fun t _ => rfl
  have e2 : (((sampleList cv g1 g2 i j).map fun t => (t.1, t.2.1 - t.2.2)).map
        fun t => t.1) =
      (sampleList cv g1 g2 i j).map fun t => t.1 := by
    rw [List.map_map]
    exact List.map_congr_left fun t _ => rfl
  have e3 : (((sampleList cv g1 g2 i j).map fun t => (t.1, t.2.1 - t.2.2)).map
        fun t => t.1 * t.2 ^ 2) =
      (sampleList cv g1 g2 i j).map fun t => t.1 * (t.2.1 - t.2.2) ^ 2 := by
    rw [List.map_map]
    exact List.map_congr_left fun t _ => rfl
  rw [e1, e2, e3] at hcs
  have hsub := wsum_sub (sampleList cv g1 g2 i j)
  have hsubsq := wsum_sub_sq (sampleList cv g1 g2 i j)
  have hwsum : ((sampleList cv g1 g2 i j).map fun t => t.1).sum = 1 := by
    rw [sampleList_weights]
    exact hker.2
  rw [hsub, hsubsq, hwsum] at hcs
  rw [blurPx_fst_sq_eq cv g1 g2 i j, blurPx_snd_sq_eq cv g1 g2 i j hh hw,
    blurPx_cross_eq cv g1 g2 i j, blurPx_fst_eq cv g1 g2 i j,
    blurPx_snd_eq cv g1 g2 i j hh hw]
  nlinarith [hcs]

/-- Blur of a pointwise-nonnegative grid is nonnegative (convex kernel). -/
theorem blurPx_nonneg (cv : CVPrims) (hker : GoodKernel cv) (g : Gray)
    (hg : ∀ i j, 0 ≤ g.px i j) (i j : Nat) : 0 ≤ blurPx cv g i j := by
  apply List.sum_nonneg
  intro x hx
  obtain ⟨t, ht, rfl⟩ := List.mem_map.mp hx
  exact mul_nonneg (hker.1 t ht) (hg _ _)

/-- SSIM of a grid against itself is exactly 1 at every pixel (convex
kernel): numerator and denominator coincide and the denominator is positive. -/
theorem ssimPx_self (cv : CVPrims) (hker : GoodKernel cv) (g : Gray)
    (i j : Nat) : ssimPx cv g g i j = 1 := by
  have hs := sigmaSq_nonneg cv hker g i j
  simp only [ssimPx]
  set m := blurPx cv g i j with hm
  set q := blurPx cv (gmul g g) i j with hq
  have h1 : 0 < m * m + m * m + ssimC1 := by nlinarith [mul_self_nonneg m, ssimC1_pos]
  have h2 : 0 < (q - m * m) + (q - m * m) + ssimC2 := by nlinarith [ssimC2_pos]
  have hnumden : (2 * m * m + ssimC1) * (2 * (q - m * m) + ssimC2) =
      (m * m + m * m + ssimC1) * ((q - m * m) + (q - m * m) + ssimC2) := by
    ring
  rw [hnumden]
  exact div_self (ne_of_gt (mul_pos h1 h2))

/-- Every pixel of the SSIM map is at most 1 when the kernel is convex and
the grids are nonnegative with equal dimensions. -/
theorem ssimPx_le_one (cv : CVPrims) (hker : GoodKernel cv) (g1 g2 : Gray)
    (hg1 : ∀ i j, 0 ≤ g1.px i j) (hg2 : ∀ i j, 0 ≤ g2.px i j)
    (hh : g1.h = g2.h) (hw : g1.w = g2.w) (i j : Nat) :
    ssimPx cv g1 g2 i j ≤ 1 := by
  have hs1 := sigmaSq_nonneg cv hker g1 i j
  have hs2 := sigmaSq_nonneg cv hker g2 i j
  have hcov := covariance_le cv hker g1 g2 hh hw i j
  have hm1 := blurPx_nonneg cv hker g1 hg1 i j
  have hm2 := blurPx_nonneg cv hker g2 hg2 i j
  simp only [ssimPx]
  set m1 := blurPx cv g1 i j
  set m2 := blurPx cv g2 i j
  set q1 := blurPx cv (gmul g1 g1) i j
  set q2 := blurPx cv (gmul g2 g2) i j
  set q12 := blurPx cv (gmul g1 g2) i j
  have hA2 : 0 < m1 * m1 + m2 * m2 + ssimC1 := by
    nlinarith [mul_self_nonneg m1, mul_self_nonneg m2, ssimC1_pos]
  have hB2 : 0 < (q1 - m1 * m1) + (q2 - m2 * m2) + ssimC2 := by
    nlinarith [ssimC2_pos]
  have hden : 0 < (m1 * m1 + m2 * m2 + ssimC1) * ((q1 - m1 * m1) + (q2 - m2 * m2) + ssimC2) :=
    mul_pos hA2 hB2
  rw [div_le_one hden]
  have hA : 2 * m1 * m2 + ssimC1 ≤ m1 * m1 + m2 * m2 + ssimC1 := by
    nlinarith [sq_nonneg (m1 - m2)]
  have hApos : 0 < 2 * m1 * m2 + ssimC1 := by
    nlinarith [mul_nonneg hm1 hm2, ssimC1_pos]
  have hB : 2 * (q12 - m1 * m2) + ssimC2 ≤ (q1 - m1 * m1) + (q2 - m2 * m2) + ssimC2 := by
    nlinarith [hcov]
  rcases le_or_lt (2 * (q12 - m1 * m2) + ssimC2) 0 with hB1 | hB1
  · calc (2 * m1 * m2 + ssimC1) * (2 * (q12 - m1 * m2) + ssimC2) ≤ 0 :=
        mul_nonpos_of_nonneg_of_nonpos (le_of_lt hApos) hB1
      _ ≤ _ := le_of_lt hden
  · exact mul_le_mul hA hB (le_of_lt hB1) (le_of_lt hA2)

/-! ### Aggregate score: the identity and bound claims -/

/-- `np.mean` of the all-ones SSIM map of a self-comparison. -/
theorem meanSSIM_self (cv : CVPrims) (hker : GoodKernel cv) (g : Gray)
    (hh : 0 < g.h) (hw : 0 < g.w) : meanSSIM cv g g = 1 := by
  unfold meanSSIM
  rw [Finset.sum_congr rfl
    (fun i _ => Finset.sum_congr rfl (fun j _ => ssimPx_self cv hker g i j))]
  simp only [Finset.sum_const, Finset.card_range, nsmul_eq_mul, mul_one]
  rw [div_eq_one_iff_eq]
  · push_cast
    ring
  · rw [Nat.cast_ne_zero]
    exact Nat.mul_ne_zero (Nat.pos_iff_ne_zero.mp hh) (Nat.pos_iff_ne_zero.mp hw)

/-- The aggregate score never exceeds 1 (convex kernel, nonnegative
equal-size grids). -/
theorem meanSSIM_le_one (cv : CVPrims) (hker : GoodKernel cv) (g1 g2 : Gray)
    (hg1 : ∀ i j, 0 ≤ g1.px i j) (hg2 : ∀ i j, 0 ≤ g2.px i j)
    (hh : g1.h = g2.h) (hw : g1.w = g2.w)
    (hhp : 0 < g1.h) (hwp : 0 < g1.w) : meanSSIM cv g1 g2 ≤ 1 := by
  unfold meanSSIM
  rw [div_le_one (by positivity)]
  calc (∑ i ∈ Finset.range g1.h, ∑ j ∈ Finset.range g1.w, ssimPx cv g1 g2 i j)
      ≤ ∑ i ∈ Finset.range g1.h, ∑ j ∈ Finset.range g1.w, (1 : ℚ) :=
        Finset.sum_le_sum (fun i _ => Finset.sum_le_sum
          (fun j _ => ssimPx_le_one cv hker g1 g2 hg1 hg2 hh hw i j))
    _ = ((g1.h * g1.w : Nat) : ℚ) := by
        simp only [Finset.sum_const, Finset.card_range, nsmul_eq_mul, mul_one]
        push_cast
        ring

/-- Structure of the aligned grids: equal dimensions and (for a nonnegative
grayscale conversion) nonnegative pixel values. -/
theorem alignedGrays_spec (cv : CVPrims) (b1 b2 : ByteBuf) (g1 g2 : Gray)
    (h : alignedGrays cv b1 b2 = some (g1, g2))
    (hgray : ∀ c, 0 ≤ cv.grayPx c) :
    g1.h = g2.h ∧ g1.w = g2.w ∧
      (∀ i j, 0 ≤ g1.px i j) ∧ (∀ i j, 0 ≤ g2.px i j) := by
  unfold alignedGrays at h
  cases h1 : cv.imdecodeRGB b1 with
  | none => rw [h1] at h; exact absurd h (by simp)
  | some a1 =>
    cases h2 : cv.imdecodeRGB b2 with
    | none => rw [h1, h2] at h; exact absurd h (by simp)
    | some a2 =>
      rw [h1, h2] at h
      simp only [Option.some.injEq, Prod.mk.injEq] at h
      obtain ⟨hg1eq, hg2eq⟩ := h
      subst hg1eq
      subst hg2eq
      refine ⟨rfl, rfl, ?_, ?_⟩
      · intro i j
        exact hgray _
      · intro i j
        exact hgray _

/-- C4: comparing any decodable, non-degenerate image against two copies of
the same bytes yields an aggregate score of exactly 1 — returned as
`similarity_percent = 100` — in the exact-rational model (hence within any
floating-point tolerance). -/
theorem C4_self_comparison (cv : CVPrims) (b : ByteBuf) (img : Img)
    (hdec : cv.imdecodeRGB b = some img) (hker : GoodKernel cv)
    (hh : 0 < img.h) (hw : 0 < img.w) :
    ∃ res, compute_ssim_and_diff cv b b = Except.ok res ∧
      res.similarityPercent = 100 := by
  have halign : alignedGrays cv b b =
      some (toGray cv (resizeTo cv img.w img.h img),
            toGray cv (resizeTo cv img.w img.h img)) := by
    unfold alignedGrays
    rw [hdec]
    simp
  unfold compute_ssim_and_diff
  rw [halign]
  refine ⟨_, rfl, ?_⟩
  show meanSSIM cv (toGray cv (resizeTo cv img.w img.h img))
      (toGray cv (resizeTo cv img.w img.h img)) * 100 = 100
  rw [meanSSIM_self cv hker _ hh hw]
  norm_num

/-- A 1×1 uniform test image. -/
def unitImg : Img := { h := 1, w := 1, px := fun _ _ => ((0 : ℚ), 0, 0) }

/-- Concrete primitives: a decoder recognizing `[0]`, identity resampling,
channel-0 grayscale, a one-point kernel. -/
def selfCV : CVPrims :=
  { imdecodeRGB := fun _ => some unitImg,
    resamplePx := fun _ _ a i j => a.px i j,
    grayPx := fun c => max 0 c.1,
    kernel := [((0 : Int), (0 : Int), (1 : ℚ))],
    encodePng := fun _ _ _ => none }

/-- Witness for C4 at a concrete 1×1 image. -/
theorem C4_self_comparison_witness :
    ∃ res, compute_ssim_and_diff selfCV [0] [0] = Except.ok res ∧
      res.similarityPercent = 100 :=
  C4_self_comparison selfCV [0] unitImg rfl
    (by constructor
        · intro t ht
          simp only [selfCV, List.mem_singleton] at ht
          rw [ht]
          norm_num
        · norm_num [selfCV])
    (by norm_num [unitImg]) (by norm_num [unitImg])

/-- C5 (amended): the returned value is `100` times the *unclamped*
arithmetic mean of the per-pixel similarity map over all pixels; the mean
never exceeds 1 (so the percentage never exceeds 100), but no clamping is
performed and the value can be negative — see the counterexample. -/
theorem C5_score_is_unclamped_mean (cv : CVPrims) (b1 b2 : ByteBuf)
    (g1 g2 : Gray) (halign : alignedGrays cv b1 b2 = some (g1, g2))
    (hker : GoodKernel cv) (hgray : ∀ c, 0 ≤ cv.grayPx c)
    (hh : 0 < g1.h) (hw : 0 < g1.w) :
    ∃ res, compute_ssim_and_diff cv b1 b2 = Except.ok res ∧
      res.similarityPercent = meanSSIM cv g1 g2 * 100 ∧
      meanSSIM cv g1 g2 ≤ 1 ∧ res.similarityPercent ≤ 100 := by
  obtain ⟨hdh, hdw, hp1, hp2⟩ := alignedGrays_spec cv b1 b2 g1 g2 halign hgray
  have hle := meanSSIM_le_one cv hker g1 g2 hp1 hp2 hdh hdw hh hw
  unfold compute_ssim_and_diff
  rw [halign]
  refine ⟨_, rfl, rfl, hle, ?_⟩
  show meanSSIM cv g1 g2 * 100 ≤ 100
  nlinarith [hle]

/-- Left half black / right half white, 1×2. -/
def cxImgA : Img :=
  { h := 1, w := 2, px := fun _ j => if j = 0 then ((0 : ℚ), 0, 0) else ((255 : ℚ), 0, 0) }

/-- The same image with the halves swapped. -/
def cxImgB : Img :=
  { h := 1, w := 2, px := fun _ j => if j = 0 then ((255 : ℚ), 0, 0) else ((0 : ℚ), 0, 0) }

/-- Concrete primitives for the anti-correlated pair: a two-point averaging
kernel (weights ½, ½ — nonnegative, summing to 1, like the Gaussian). -/
def cxCV : CVPrims :=
  { imdecodeRGB := fun b => if b = [0] then some cxImgA else
      if b = [1] then some cxImgB else none,
    resamplePx := fun _ _ a i j => a.px i j,
    grayPx := fun c => max 0 c.1,
    kernel := [((0 : Int), (0 : Int), (1 : ℚ) / 2), ((0 : Int), (1 : Int), (1 : ℚ) / 2)],
    encodePng := fun _ _ _ => none }

/-- C5 counterexample: comparing the two anti-correlated images returns
normally with a *negative* similarity value — the score is not clamped into
[0, 1] before being returned (the local covariance is negative enough to make
the mean SSIM negative). -/
theorem C5_counterexample_negative_score :
    runOk cxCV [0] [1] = true ∧ runPercent cxCV [0] [1] < 0 := by
  refine ⟨by decide, by decide⟩

/-- Witness for C5 (amended) at the concrete anti-correlated pair. -/
theorem C5_score_witness :
    ∃ res, compute_ssim_and_diff cxCV [0] [1] = Except.ok res ∧
      res.similarityPercent =
        meanSSIM cxCV (toGray cxCV (resizeTo cxCV 2 1 cxImgA))
          (toGray cxCV (resizeTo cxCV 2 1 cxImgB)) * 100 ∧
      meanSSIM cxCV (toGray cxCV (resizeTo cxCV 2 1 cxImgA))
          (toGray cxCV (resizeTo cxCV 2 1 cxImgB)) ≤ 1 ∧
      (res : SSIMResult).similarityPercent ≤ 100 :=
  C5_score_is_unclamped_mean cxCV [0] [1]
    (toGray cxCV (resizeTo cxCV 2 1 cxImgA))
    (toGray cxCV (resizeTo cxCV 2 1 cxImgB)) rfl
    (by constructor
        · intro t ht
          simp only [cxCV, List.mem_cons, List.mem_singleton] at ht
          rcases ht with rfl | rfl | h
          · norm_num
          · norm_num
          · exact absurd h (List.not_mem_nil t)
        · norm_num [cxCV])
    (fun c => le_max_left 0 c.1)
    (by norm_num [toGray, resizeTo])
    (by norm_num [toGray, resizeTo])

/-! ### Connected-component correctness

`closureFrom P p` is proven to be exactly the set of pixels reachable from
`p` through 8-connected foreground paths — i.e. a genuine connected component
of the binarized image. -/

/-- Reachability inside a pixel set by chains of 8-adjacent steps. -/
inductive ReachIn (P : Finset (Nat × Nat)) : (Nat × Nat) → (Nat × Nat) → Prop
  | refl (p : Nat × Nat) (hp : p ∈ P) : ReachIn P p p
  | tail {p q r : Nat × Nat} : ReachIn P p q → r ∈ P → adjB q r = true →
      ReachIn P p r

/-- `C` is a connected component of the pixel set `P`: the exact set of
pixels reachable from some member. -/
def IsCC (P : Finset (Nat × Nat)) (C : Finset (Nat × Nat)) : Prop :=
  ∃ p ∈ C, ∀ q, q ∈ C ↔ ReachIn P p q

theorem subset_expandCC (P S : Finset (Nat × Nat)) : S ⊆ expandCC P S :=
  Finset.subset_union_left

theorem iterate_expandCC_subset (P : Finset (Nat × Nat)) {p : Nat × Nat}
    (hp : p ∈ P) : ∀ n, (expandCC P)^[n] {p} ⊆ P := by
  intro n
  induction n with
  | zero => simpa using hp
  | succ n ih =>
    rw [Function.iterate_succ_apply']
    unfold expandCC
    exact Finset.union_subset ih (Finset.filter_subset _ P)

theorem seed_mem_iterate (P : Finset (Nat × Nat)) (p : Nat × Nat) :
    ∀ n, p ∈ (expandCC P)^[n] {p} := by
  intro n
  induction n with
  | zero => simp
  | succ n ih =>
    rw [Function.iterate_succ_apply']
    exact subset_expandCC P _ ih

theorem iterate_expandCC_sound (P : Finset (Nat × Nat)) {p : Nat × Nat}
    (hp : p ∈ P) :
    ∀ n q, q ∈ (expandCC P)^[n] {p} → ReachIn P p q := by
  intro n
  induction n with
  | zero =>
    intro q hq
    simp only [Function.iterate_zero_apply, Finset.mem_singleton] at hq
    rw [hq]
    exact ReachIn.refl p hp
  | succ n ih =>
    intro q hq
    rw [Function.iterate_succ_apply'] at hq
    unfold expandCC at hq
    rcases Finset.mem_union.mp hq with hq | hq
    · exact ih q hq
    · obtain ⟨hqP, m, hm, hadj⟩ := Finset.mem_filter.mp hq
      exact ReachIn.tail (ih m hm) hqP hadj

theorem expandCC_stab (P S : Finset (Nat × Nat)) (hS : expandCC P S = S) :
    ∀ n, (expandCC P)^[n] S = S := by
  intro n
  induction n with
  | zero => rfl
  | succ n ih => rw [Function.iterate_succ_apply', ih, hS]

theorem iterate_card_growth (P : Finset (Nat × Nat)) (p : Nat × Nat) :
    ∀ n, (∀ k, k < n → (expandCC P)^[k + 1] {p} ≠ (expandCC P)^[k] {p}) →
      n + 1 ≤ ((expandCC P)^[n] {p}).card := by
  intro n
  induction n with
  | zero => simp
  | succ n ih =>
    intro hall
    have h1 := ih (fun k hk => hall k (Nat.lt_succ_of_lt hk))
    have h2 : (expandCC P)^[n] {p} ⊂ (expandCC P)^[n + 1] {p} := by
      refine Finset.ssubset_iff_subset_ne.mpr ⟨?_, ?_⟩
      · rw [Function.iterate_succ_apply']
        exact subset_expandCC P _
      · exact (hall n (Nat.lt_succ_self n)).symm
    have h3 := Finset.card_lt_card h2
    omega

theorem closureFrom_fixpoint (P : Finset (Nat × Nat)) {p : Nat × Nat}
    (hp : p ∈ P) : expandCC P (closureFrom P p) = closureFrom P p := by
  unfold closureFrom
  by_contra hne
  have hall : ∀ k, k < P.card → (expandCC P)^[k + 1] {p} ≠ (expandCC P)^[k] {p} := by
    intro k hk heq
    have hS : expandCC P ((expandCC P)^[k] {p}) = (expandCC P)^[k] {p} := by
      rw [← Function.iterate_succ_apply' (expandCC P) k ({p} : Finset (Nat × Nat))]
      exact heq
    have hcardk : (expandCC P)^[P.card] {p} = (expandCC P)^[k] {p} := by
      have hdecomp : P.card = (P.card - k) + k := by omega
      rw [hdecomp, Function.iterate_add_apply]
      exact expandCC_stab P _ hS _
    apply hne
    rw [hcardk, hS, ← hcardk]
  have h1 := iterate_card_growth P p P.card hall
  have h2 := Finset.card_le_card (iterate_expandCC_subset P hp P.card)
  omega

theorem closureFrom_complete (P : Finset (Nat × Nat)) {p q : Nat × Nat}
    (hp : p ∈ P) (hreach : ReachIn P p q) : q ∈ closureFrom P p := by
  induction hreach with
  | refl hp2 => exact seed_mem_iterate P p P.card
  | tail hr hrP hadj ih =>
    rw [← closureFrom_fixpoint P hp]
    unfold expandCC
    apply Finset.mem_union_right
    rw [Finset.mem_filter]
    exact ⟨hrP, _, ih, hadj⟩

/-- The computed closure of a foreground seed is a genuine connected
component. -/
theorem closureFrom_isCC (P : Finset (Nat × Nat)) {p : Nat × Nat}
    (hp : p ∈ P) : IsCC P (closureFrom P p) := by
  refine ⟨p, seed_mem_iterate P p P.card, fun q => ⟨?_, ?_⟩⟩
  · exact iterate_expandCC_sound P hp P.card q
  · exact closureFrom_complete P hp

theorem componentsAux_mem (P : Finset (Nat × Nat)) :
    ∀ (l : List (Nat × Nat)) (seen : Finset (Nat × Nat)),
      (∀ x ∈ l, x ∈ P) →
      ∀ C ∈ componentsAux P l seen, ∃ p ∈ P, C = closureFrom P p := by
  intro l
  induction l with
  | nil => intro seen _ C hC; exact absurd hC (by simp [componentsAux])
  | cons p rest ih =>
    intro seen hl C hC
    have hp : p ∈ P := hl p (List.mem_cons_self p rest)
    have hrest : ∀ x ∈ rest, x ∈ P := fun x hx => hl x (List.mem_cons_of_mem p hx)
    unfold componentsAux at hC
    split at hC
    · exact ih _ hrest C hC
    · rcases List.mem_cons.mp hC with rfl | hC2
      · exact ⟨p, hp, rfl⟩
      · exact ih _ hrest C hC2

theorem rowMajorFg_mem (h w : Nat) (fg : Nat → Nat → Bool) :
    ∀ x ∈ rowMajorFg h w fg, x ∈ FgSet h w fg := by
  intro x hx
  obtain ⟨t, ht, hfx⟩ := List.mem_filterMap.mp hx
  rw [List.mem_range] at ht
  split at hfx
  next hfg =>
    cases Option.some.inj hfx
    have hwpos : 0 < w := by
      rcases Nat.eq_zero_or_pos w with rfl | hw
      · omega
      · exact hw
    unfold FgSet
    rw [Finset.mem_filter, Finset.mem_product, Finset.mem_range, Finset.mem_range]
    refine ⟨⟨?_, Nat.mod_lt t hwpos⟩, hfg⟩
    rw [Nat.div_lt_iff_lt_mul hwpos]
    omega
  next => exact absurd hfx (by simp)

/-- Every extracted region is the bounding box of a connected component of
the binarized map, with `area = width * height ≥ 50`. -/
theorem extractRegions_spec (h w : Nat) (fg : Nat → Nat → Bool) (r : Region)
    (hr : r ∈ extractRegions h w fg) :
    r.area = r.width * r.height ∧ 50 ≤ r.area ∧
      ∃ C : Finset (Nat × Nat), r = bboxOf C ∧ IsCC (FgSet h w fg) C := by
  unfold extractRegions at hr
  rw [List.mem_filter] at hr
  obtain ⟨hmem, hcond⟩ := hr
  have harea : 50 ≤ r.area := by
    have := of_decide_eq_true hcond
    omega
  obtain ⟨C, hC, rfl⟩ := List.mem_map.mp hmem
  obtain ⟨p, hp, rfl⟩ := componentsAux_mem (FgSet h w fg) (rowMajorFg h w fg) ∅
    (rowMajorFg_mem h w fg) C hC
  exact ⟨rfl, harea, closureFrom (FgSet h w fg) p, rfl, closureFrom_isCC _ hp⟩

/-- C6: every region returned by `compute_ssim_and_diff` has nonnegative
coordinates and extent (they are pixel indices/counts), satisfies
`area = width * height ≥ 50` (components under the 50-pixel noise floor are
discarded), and is the axis-aligned bounding box of a connected component of
the binarized map whose foreground is exactly the pixels with 8-bit
dissimilarity exceeding 30. -/
theorem C6_region_properties (cv : CVPrims) (b1 b2 : ByteBuf) (g1 g2 : Gray)
    (halign : alignedGrays cv b1 b2 = some (g1, g2)) (r : Region)
    (hr : r ∈ runRegions cv b1 b2) :
    (0 : Int) ≤ r.x ∧ (0 : Int) ≤ r.y ∧ (0 : Int) ≤ r.width ∧ (0 : Int) ≤ r.height ∧
    r.area = r.width * r.height ∧ 50 ≤ r.area ∧
    ∃ C : Finset (Nat × Nat), r = bboxOf C ∧
      IsCC (FgSet g1.h g1.w (diffFg cv g1 g2)) C := by
  have hrun : runRegions cv b1 b2 = extractRegions g1.h g1.w (diffFg cv g1 g2) := by
    unfold runRegions compute_ssim_and_diff
    rw [halign]
  rw [hrun] at hr
  obtain ⟨h1, h2, h3⟩ := extractRegions_spec g1.h g1.w (diffFg cv g1 g2) r hr
  exact ⟨Int.natCast_nonneg r.x, Int.natCast_nonneg r.y, Int.natCast_nonneg r.width,
    Int.natCast_nonneg r.height, h1, h2, h3⟩

/-- An 8×8 all-black test image. -/
def zeroImg8 : Img := { h := 8, w := 8, px := fun _ _ => ((0 : ℚ), 0, 0) }

/-- An 8×8 image that is white exactly on the main diagonal. -/
def diagImg8 : Img :=
  { h := 8, w := 8, px := fun i j => if i = j then ((255 : ℚ), 0, 0) else ((0 : ℚ), 0, 0) }

/-- Concrete primitives for the diagonal-difference pair: the binarized diff
is the 8-pixel diagonal, one 8-connected component with an 8×8 bounding box
(area 64 ≥ 50). -/
def ccCV : CVPrims :=
  { imdecodeRGB := fun b => if b = [0] then some zeroImg8 else
      if b = [1] then some diagImg8 else none,
    resamplePx := fun _ _ a i j => a.px i j,
    grayPx := fun c => max 0 c.1,
    kernel := [((0 : Int), (0 : Int), (1 : ℚ))],
    encodePng := fun _ _ _ => none }

/-- Witness for C6: the single region of the diagonal-difference comparison. -/
theorem C6_region_properties_witness :
    (0 : Int) ≤ (⟨0, 0, 8, 8, 64⟩ : Region).x ∧
    (0 : Int) ≤ (⟨0, 0, 8, 8, 64⟩ : Region).y ∧
    (0 : Int) ≤ (⟨0, 0, 8, 8, 64⟩ : Region).width ∧
    (0 : Int) ≤ (⟨0, 0, 8, 8, 64⟩ : Region).height ∧
    (⟨0, 0, 8, 8, 64⟩ : Region).area =
      (⟨0, 0, 8, 8, 64⟩ : Region).width * (⟨0, 0, 8, 8, 64⟩ : Region).height ∧
    50 ≤ (⟨0, 0, 8, 8, 64⟩ : Region).area ∧
    ∃ C : Finset (Nat × Nat), (⟨0, 0, 8, 8, 64⟩ : Region) = bboxOf C ∧
      IsCC (FgSet (toGray ccCV (resizeTo ccCV 8 8 zeroImg8)).h
        (toGray ccCV (resizeTo ccCV 8 8 zeroImg8)).w
        (diffFg ccCV (toGray ccCV (resizeTo ccCV 8 8 zeroImg8))
          (toGray ccCV (resizeTo ccCV 8 8 diagImg8)))) C :=
  C6_region_properties ccCV [0] [1]
    (toGray ccCV (resizeTo ccCV 8 8 zeroImg8))
    (toGray ccCV (resizeTo ccCV 8 8 diagImg8)) rfl
    ⟨0, 0, 8, 8, 64⟩ (by decide)

/-! ### Severity assignment (`process_run_id`, lines 414-429)

The regions returned by `compute_ssim_and_diff` carry no severity;
`process_run_id` attaches it when building each `change_details` row. -/

/-- One `change_details` row as built by `process_run_id` (the `cd` dict,
lines 414-428; the external AI-annotation fields are the collaborator's, not
modelled). -/
structure ChangeDetail where
  changeType : String
  description : String
  positionX : Nat
  positionY : Nat
  width : Nat
  height : Nat
  severity : String
deriving DecidableEq

/-- The `cd` record for one region: `'severity': 'major' if
reg.get('area', 0) > 1000 else 'minor'` (line 422). -/
def mkChangeDetail (reg : Region) : ChangeDetail :=
  { changeType := "visual",
    description := "Detected change in region area " ++ toString reg.area,
    positionX := reg.x,
    positionY := reg.y,
    width := reg.width,
    height := reg.height,
    severity := if 1000 < reg.area then "major" else "minor" }

/-- C7: for every region produced by region extraction, the severity the
pipeline attaches to it (in `process_run_id`, when the region is turned into
a `change_details` row) is `major` exactly when its area exceeds 1000 and
`minor` otherwise. -/
theorem C7_severity_threshold (cv : CVPrims) (b1 b2 : ByteBuf) (r : Region)
    (hr : r ∈ runRegions cv b1 b2) :
    ((mkChangeDetail r).severity = "major" ↔ 1000 < r.area) ∧
    ((mkChangeDetail r).severity = "minor" ↔ r.area ≤ 1000) := by
  have hsev : (mkChangeDetail r).severity =
      if 1000 < r.area then "major" else "minor" := rfl
  rw [hsev]
  by_cases h : 1000 < r.area
  · rw [if_pos h]
    exact ⟨iff_of_true rfl h, iff_of_false (by decide) (by omega)⟩
  · rw [if_neg h]
    exact ⟨iff_of_false (by decide) h, iff_of_true rfl (by omega)⟩

/-- Witness for C7 at the concrete diagonal-difference region (area 64, so
the attached severity is `minor`). -/
theorem C7_severity_threshold_witness :
    ((mkChangeDetail ⟨0, 0, 8, 8, 64⟩).severity = "major" ↔
      1000 < (⟨0, 0, 8, 8, 64⟩ : Region).area) ∧
    ((mkChangeDetail ⟨0, 0, 8, 8, 64⟩).severity = "minor" ↔
      (⟨0, 0, 8, 8, 64⟩ : Region).area ≤ 1000) :=
  C7_severity_threshold ccCV [0] [1] ⟨0, 0, 8, 8, 64⟩ (by decide)

end DocUpdater
